import Mathlib

/-!
Verification of the `ring` ICMP echo engine (Rust) against its
natural-language specification.

Shallow embedding conventions:
* Byte buffers are `List Nat`; every read goes through a `% 256` mask,
  which embeds the Rust `u8` type invariant.
* Machine integers are `Nat` with explicit wrap-around (`% 2 ^ w`) at the
  operations where the Rust code can wrap (release semantics).
* Operations that can panic in Rust (out-of-bounds slice indexing) are
  modelled with `Option`, `none` standing for the panic.
-/

namespace Ring

/-- Read the byte at index `i` of a buffer. Out-of-range reads default to 0
(only used where the source guarantees the index is in range); the `% 256`
mask embeds the `u8` type invariant. -/
def byteAt (data : List Nat) (i : Nat) : Nat := data.getD i 0 % 256

/-- The big-endian 16-bit word at word offset `i` of a buffer, as read by
`sum_be_words` in src/util.rs: `u16::from_be(wdata[i])` over the reinterpreted
`u16` slice equals `data[2*i] << 8 | data[2*i+1]`. -/
def wordAt (data : List Nat) (i : Nat) : Nat :=
  256 * byteAt data (2 * i) + byteAt data (2 * i + 1)

/-- The mathematical (unbounded) word sum accumulated by `sum_be_words`
(src/util.rs lines 39-63) before u32 wrap-around is applied: all big-endian
16-bit words of `data` except the word at (clamped) offset `skipword`; an odd
final byte contributes as the high byte of a final word. The first loop covers
word indices `[0, skipword)`, the second `[skipword+1, len/2)`. -/
def sum_be_words_raw (data : List Nat) (skipword : Nat) : Nat :=
  if data.length = 0 then 0
  else
    (∑ i in Finset.range (min skipword (data.length / 2)), wordAt data i) +
    (∑ i in Finset.Ico (min skipword (data.length / 2) + 1) (data.length / 2),
      wordAt data i) +
    (if data.length % 2 = 1 then 256 * byteAt data (data.length - 1) else 0)

/-- Embedding of `sum_be_words` (src/util.rs lines 39-63). The Rust
accumulator is `sum: u32`, so each `sum += word` wraps modulo `2^32` (release
semantics); since `(x % m + y) % m = (x + y) % m`, wrapping every addition of
the loop equals reducing the finished total once, so the embedding takes the
unbounded word sum modulo `2^32`. -/
def sum_be_words (data : List Nat) (skipword : Nat) : Nat :=
  sum_be_words_raw data skipword % 4294967296

/-- `s >>> 16` on the `u32` accumulator is division by `2^16`. -/
theorem shiftRight16_eq (s : Nat) : s >>> 16 = s / 65536 := by
  rw [Nat.shiftRight_eq_div_pow]

/-- `s &&& 0xFFFF` on the `u32` accumulator is reduction mod `2^16`. -/
theorem and_FFFF_eq (s : Nat) : s &&& 0xFFFF = s % 65536 := by
  have h := Nat.and_pow_two_sub_one_eq_mod s 16
  norm_num at h
  exact h

/-- Embedding of the carry-fold loop of `get_checksum` (src/util.rs lines
28-30): `while sum >> 16 != 0 { sum = (sum >> 16) + (sum & 0xFFFF) }`. -/
def foldCarry (s : Nat) : Nat :=
  if h : s >>> 16 ≠ 0 then foldCarry ((s >>> 16) + (s &&& 0xFFFF)) else s
termination_by s
decreasing_by
  rw [shiftRight16_eq] at h ⊢
  rw [and_FFFF_eq]
  omega

/-- The folded accumulator fits in 16 bits. -/
theorem foldCarry_lt (s : Nat) : foldCarry s < 65536 := by
  induction s using Nat.strong_induction_on with
  | _ s ih =>
    rw [foldCarry]
    split
    · rename_i h
      rw [shiftRight16_eq] at h
      refine ih _ ?_
      rw [shiftRight16_eq, and_FFFF_eq]
      omega
    · rename_i h
      rw [shiftRight16_eq] at h
      omega

/-- Folding never increases the accumulator. -/
theorem foldCarry_le (s : Nat) : foldCarry s ≤ s := by
  induction s using Nat.strong_induction_on with
  | _ s ih =>
    rw [foldCarry]
    split
    · rename_i h
      rw [shiftRight16_eq] at h
      have h2 : s >>> 16 + (s &&& 0xFFFF) < s := by
        rw [shiftRight16_eq, and_FFFF_eq]; omega
      exact le_trans (ih _ h2) (le_of_lt h2)
    · exact le_refl s

/-- Folding preserves the value modulo `65535` (since `2^16 ≡ 1 [MOD 65535]`). -/
theorem foldCarry_mod (s : Nat) : foldCarry s % 65535 = s % 65535 := by
  induction s using Nat.strong_induction_on with
  | _ s ih =>
    rw [foldCarry]
    split
    · rename_i h
      rw [shiftRight16_eq] at h
      have h2 : s >>> 16 + (s &&& 0xFFFF) < s := by
        rw [shiftRight16_eq, and_FFFF_eq]; omega
      rw [ih _ h2, shiftRight16_eq, and_FFFF_eq]
      omega
    · rfl

/-- The fold result is zero exactly on a zero accumulator. -/
theorem foldCarry_eq_zero (s : Nat) : foldCarry s = 0 ↔ s = 0 := by
  induction s using Nat.strong_induction_on with
  | _ s ih =>
    rw [foldCarry]
    split
    · rename_i h
      rw [shiftRight16_eq] at h
      have h2 : s >>> 16 + (s &&& 0xFFFF) < s := by
        rw [shiftRight16_eq, and_FFFF_eq]; omega
      rw [ih _ h2, shiftRight16_eq, and_FFFF_eq]
      omega
    · rfl

/-- Embedding of `get_checksum` (src/util.rs lines 26-33): carry-fold the word
sum, then take the ones-complement truncated to 16 bits (`!sum as u16`, with
`sum : u32` already below `2^16` after the fold). -/
def get_checksum (data : List Nat) (location : Nat) : Nat :=
  (4294967295 - foldCarry (sum_be_words data location)) % 65536

/-- Embedding of `set_checksum` (src/util.rs lines 20-24): computes the
checksum and writes it big-endian at bytes `location*2` and `location*2+1`.
The Rust writes use panicking index syntax `data[location*2] = ...`, so an
out-of-range location aborts: modelled by `none`. -/
def set_checksum (data : List Nat) (location : Nat) : Option (List Nat) :=
  if location * 2 + 1 < data.length then
    some ((data.set (location * 2) ((get_checksum data location &&& 0xFF00) >>> 8)).set
      (location * 2 + 1) (get_checksum data location &&& 0x00FF))
  else none

/-- The unbounded total of re-summing every big-endian word of a buffer with
nothing skipped (odd final byte as the high byte of a final word). -/
def sumAllWords_raw (data : List Nat) : Nat :=
  (∑ i in Finset.range (data.length / 2), wordAt data i) +
  (if data.length % 2 = 1 then 256 * byteAt data (data.length - 1) else 0)

/-- Re-summing every big-endian word of a buffer with nothing skipped, in the
same u32 accumulator as the code (wrap modulo `2^32`): the verification sum of
the self-check identity. It coincides with `sum_be_words` when the skip index
is clamped past the end, see `sumAllWords_eq_skip_none`. -/
def sumAllWords (data : List Nat) : Nat :=
  sumAllWords_raw data % 4294967296

/-- Sanity (unbounded totals): skipping at or past the word count skips
nothing. -/
theorem sum_be_words_raw_skip_none (data : List Nat) :
    sum_be_words_raw data (data.length / 2) = sumAllWords_raw data := by
  unfold sum_be_words_raw sumAllWords_raw
  split
  · rename_i h
    simp [h]
  · rw [min_self]
    rw [Finset.Ico_eq_empty (by omega), Finset.sum_empty]
    omega

/-- Sanity: skipping at (or past) the word count skips nothing. -/
theorem sumAllWords_eq_skip_none (data : List Nat) :
    sum_be_words data (data.length / 2) = sumAllWords data := by
  unfold sum_be_words sumAllWords
  rw [sum_be_words_raw_skip_none]

/-- Reading a byte at an index other than the written one is unchanged. -/
theorem byteAt_set_ne (l : List Nat) (i j a : Nat) (h : i ≠ j) :
    byteAt (l.set i a) j = byteAt l j := by
  unfold byteAt
  rw [List.getD_eq_getElem?_getD, List.getD_eq_getElem?_getD, List.getElem?_set_ne h]

/-- Reading back a written byte (in range) yields the written value mod 256. -/
theorem byteAt_set_self (l : List Nat) (i a : Nat) (h : i < l.length) :
    byteAt (l.set i a) i = a % 256 := by
  unfold byteAt
  rw [List.getD_eq_getElem?_getD, List.getElem?_set_self h]
  rfl

/-- Patching word `k` leaves every other word unchanged. -/
theorem wordAt_patch_ne (data : List Nat) (k a b i : Nat) (h : i ≠ k) :
    wordAt ((data.set (k * 2) a).set (k * 2 + 1) b) i = wordAt data i := by
  unfold wordAt
  rw [byteAt_set_ne _ _ _ _ (by omega), byteAt_set_ne _ _ _ _ (by omega),
    byteAt_set_ne _ _ _ _ (by omega), byteAt_set_ne _ _ _ _ (by omega)]

/-- The patched word reassembles from the two stored bytes. -/
theorem wordAt_patch_self (data : List Nat) (k a b : Nat)
    (hk : k * 2 + 1 < data.length) :
    wordAt ((data.set (k * 2) a).set (k * 2 + 1) b) k = 256 * (a % 256) + b % 256 := by
  unfold wordAt
  rw [Nat.mul_comm 2 k]
  rw [byteAt_set_ne _ _ _ _ (by omega)]
  rw [byteAt_set_self _ _ _ (by omega)]
  rw [byteAt_set_self _ _ _ (by rw [List.length_set]; omega)]

/-- The unbounded skip-`k` word sum is unchanged by patching word `k`. -/
theorem sum_be_words_raw_patch (data : List Nat) (k a b : Nat)
    (hk : k * 2 + 1 < data.length) :
    sum_be_words_raw ((data.set (k * 2) a).set (k * 2 + 1) b) k =
      sum_be_words_raw data k := by
  have hlen : ((data.set (k * 2) a).set (k * 2 + 1) b).length = data.length := by simp
  unfold sum_be_words_raw
  rw [hlen]
  have hne : ¬ data.length = 0 := by omega
  rw [if_neg hne, if_neg hne]
  have hmin : min k (data.length / 2) = k := by omega
  rw [hmin]
  congr 1
  congr 1
  · exact Finset.sum_congr rfl fun i hi =>
      wordAt_patch_ne data k a b i (by simp at hi; omega)
  · exact Finset.sum_congr rfl fun i hi =>
      wordAt_patch_ne data k a b i (by simp at hi; omega)
  · split
    · rename_i hodd
      rw [byteAt_set_ne _ _ _ _ (by omega), byteAt_set_ne _ _ _ _ (by omega)]
    · rfl

/-- The unbounded full word sum splits as the skip-`k` sum plus word `k`. -/
theorem sumAllWords_raw_split (data : List Nat) (k : Nat) (hk : k < data.length / 2) :
    sumAllWords_raw data = sum_be_words_raw data k + wordAt data k := by
  have hne : ¬ data.length = 0 := by omega
  unfold sumAllWords_raw sum_be_words_raw
  rw [if_neg hne]
  have hmin : min k (data.length / 2) = k := by omega
  rw [hmin]
  have h1 : (∑ i in Finset.Ico 0 k, wordAt data i) +
      (∑ i in Finset.Ico k (data.length / 2), wordAt data i) =
      ∑ i in Finset.Ico 0 (data.length / 2), wordAt data i :=
    Finset.sum_Ico_consecutive _ (Nat.zero_le k) (le_of_lt hk)
  have h2 : (∑ i in Finset.Ico k (data.length / 2), wordAt data i) =
      wordAt data k + ∑ i in Finset.Ico (k + 1) (data.length / 2), wordAt data i :=
    Finset.sum_eq_sum_Ico_succ_bot hk _
  rw [← Finset.range_eq_Ico] at h1
  generalize (if data.length % 2 = 1 then 256 * byteAt data (data.length - 1) else 0) = oddb
  omega

/-- `(a &&& b) / 2 ^ n` distributes over both operands. -/
theorem and_div_two_pow (a b n : Nat) : (a &&& b) / 2 ^ n = a / 2 ^ n &&& b / 2 ^ n := by
  induction n with
  | zero => simp
  | succ n ih =>
    rw [pow_succ, ← Nat.div_div_eq_div_mul, ← Nat.div_div_eq_div_mul,
      ← Nat.div_div_eq_div_mul, ih, Nat.and_div_two]

/-- The two bytes written by `set_checksum` reassemble to the checksum value. -/
theorem checksum_bytes_recombine (c : Nat) (hc : c < 65536) :
    256 * (((c &&& 0xFF00) >>> 8) % 256) + (c &&& 0x00FF) % 256 = c := by
  have h1 : c &&& 0x00FF = c % 256 := by
    have h := Nat.and_pow_two_sub_one_eq_mod c 8
    norm_num at h
    exact h
  have h2 : (c &&& 0xFF00) >>> 8 = c / 256 &&& 255 := by
    rw [Nat.shiftRight_eq_div_pow, and_div_two_pow]
    norm_num
  have h3 : c / 256 &&& 255 = c / 256 % 256 := by
    have h := Nat.and_pow_two_sub_one_eq_mod (c / 256) 8
    norm_num at h
    exact h
  rw [h1, h2, h3]
  omega

/-- C1: Internet-checksum self-verification identity. For every byte buffer
and word index `k` in the word range, `set_checksum` succeeds, and re-summing
all big-endian words of the patched buffer (skipping nothing, odd final byte
as the high byte of a final word) and folding the carries yields `0xFFFF`. -/
theorem checksum_self_verification (data : List Nat) (k : Nat)
    (hk : k < data.length / 2) :
    ∃ patched, set_checksum data k = some patched ∧
      foldCarry (sumAllWords patched) = 0xFFFF := by
  have hlen : k * 2 + 1 < data.length := by omega
  refine ⟨(data.set (k * 2) ((get_checksum data k &&& 0xFF00) >>> 8)).set (k * 2 + 1)
    (get_checksum data k &&& 0x00FF), ?_, ?_⟩
  · unfold set_checksum
    rw [if_pos hlen]
  · have hflt := foldCarry_lt (sum_be_words data k)
    have hfle := foldCarry_le (sum_be_words data k)
    have hfmod := foldCarry_mod (sum_be_words data k)
    have hfzero := foldCarry_eq_zero (sum_be_words data k)
    have hS_lt : sum_be_words data k < 4294967296 := by
      unfold sum_be_words
      exact Nat.mod_lt _ (by norm_num)
    have hc_lt : get_checksum data k < 65536 := Nat.mod_lt _ (by norm_num)
    have hgc : get_checksum data k = 65535 - foldCarry (sum_be_words data k) := by
      unfold get_checksum
      omega
    have hsplit := sumAllWords_raw_split
      ((data.set (k * 2) ((get_checksum data k &&& 0xFF00) >>> 8)).set (k * 2 + 1)
        (get_checksum data k &&& 0x00FF)) k (by simpa using hk)
    rw [sum_be_words_raw_patch data k _ _ hlen] at hsplit
    rw [wordAt_patch_self data k _ _ hlen] at hsplit
    rw [checksum_bytes_recombine _ hc_lt] at hsplit
    have hwrap : sumAllWords ((data.set (k * 2) ((get_checksum data k &&& 0xFF00) >>> 8)).set
        (k * 2 + 1) (get_checksum data k &&& 0x00FF)) =
        (sum_be_words data k + get_checksum data k) % 4294967296 := by
      unfold sumAllWords sum_be_words
      rw [hsplit, Nat.mod_add_mod]
    have hnowrap : sum_be_words data k + get_checksum data k < 4294967296 := by
      rw [hgc]
      by_contra hcon
      push_neg at hcon
      omega
    rw [hwrap, Nat.mod_eq_of_lt hnowrap]
    have htot0 : (sum_be_words data k + get_checksum data k) % 65535 = 0 := by
      rw [hgc]; omega
    have htotpos : sum_be_words data k + get_checksum data k ≠ 0 := by
      rw [hgc]; omega
    have h1 := foldCarry_lt (sum_be_words data k + get_checksum data k)
    have h2 := foldCarry_mod (sum_be_words data k + get_checksum data k)
    have h3 := foldCarry_eq_zero (sum_be_words data k + get_checksum data k)
    omega

/-- C1 witness: the identity at a concrete five-byte buffer, word index 1. -/
theorem checksum_self_verification_witness :
    ∃ patched, set_checksum [1, 2, 3, 4, 5] 1 = some patched ∧
      foldCarry (sumAllWords patched) = 0xFFFF :=
  checksum_self_verification [1, 2, 3, 4, 5] 1 (by decide)

/-- C2 counterexample: `set_checksum` on a two-byte buffer with skip index 1
writes at byte indices 2 and 3, which are out of range: the Rust indexing
`data[location*2] = ...` panics (modelled by `none`), so the engine is not
total for every skip index. -/
theorem set_checksum_oob_panics : set_checksum [0, 0] 1 = none := by
  unfold set_checksum
  simp

/-- C2 (amended): `get_checksum` clamps an out-of-range skip index to the word
count of the buffer (skipping nothing), with no error condition for any `k`;
`set_checksum` is defined exactly when the checksum word it writes lies inside
the buffer, i.e. when `k * 2 + 1 < data.length`, and panics otherwise. -/
theorem checksum_totality_amended (data : List Nat) (k : Nat) :
    get_checksum data k = get_checksum data (min k (data.length / 2)) ∧
    ((set_checksum data k).isSome ↔ k * 2 + 1 < data.length) := by
  constructor
  · unfold get_checksum sum_be_words sum_be_words_raw
    rw [min_assoc, min_self]
  · unfold set_checksum
    split
    · rename_i h
      simpa using h
    · rename_i h
      simpa using h

/-- The mutable state of the `Pinger` session (src/ping.rs lines 36-44):
`session` is the random `u16` identifier fixed at construction, `sequence` the
`u16` sequence counter. The socket, address and coder are external transport
state with no bearing on the counters. -/
structure Pinger where
  session : Nat
  sequence : Nat
deriving DecidableEq, Repr

/-- Embedding of `Pinger::new` (src/ping.rs lines 54-72): the identifier is a
random `u16` (supplied here as a parameter, masked to the `u16` range) and the
sequence counter starts at 0. -/
def Pinger.new (sid : Nat) : Pinger :=
  { session := sid % 65536, sequence := 0 }

/-- Embedding of `Pinger::ping` (src/ping.rs lines 75-90): the sequence counter
is incremented (u16 wrap-around) before the send; the send outcome is decided
by the external transport, abstracted by `sendOk`. On success the new sequence
number is returned; on failure the error propagates (`none`) but the counter
stays advanced. -/
def ping (p : Pinger) (sendOk : Bool) : Pinger × Option Nat :=
  ({ p with sequence := (p.sequence + 1) % 65536 },
   if sendOk then some ((p.sequence + 1) % 65536) else none)

/-- `n` consecutive `ping` calls whose sends all succeed: final state and the
list of returned sequence numbers. -/
def pingRuns (p : Pinger) : Nat → Pinger × List (Option Nat)
  | 0 => (p, [])
  | n + 1 =>
    ((ping (pingRuns p n).1 true).1,
     (pingRuns p n).2 ++ [(ping (pingRuns p n).1 true).2])

/-- After `n` successful pings the counter holds `(initial + n) % 2^16`. -/
theorem pingRuns_state (p : Pinger) (hp : p.sequence < 65536) (n : Nat) :
    (pingRuns p n).1 = { session := p.session, sequence := (p.sequence + n) % 65536 } := by
  induction n with
  | zero =>
    unfold pingRuns
    rw [Nat.add_zero, Nat.mod_eq_of_lt hp]
  | succ n ih =>
    unfold pingRuns
    rw [ih]
    unfold ping
    simp only [Pinger.mk.injEq, true_and]
    omega

/-- The `n` returned sequence numbers are `(initial + 1) % 2^16` through
`(initial + n) % 2^16` in order. -/
theorem pingRuns_returns (p : Pinger) (hp : p.sequence < 65536) (n : Nat) :
    (pingRuns p n).2 = (List.range n).map (fun i => some ((p.sequence + i + 1) % 65536)) := by
  induction n with
  | zero => rfl
  | succ n ih =>
    unfold pingRuns
    rw [ih, pingRuns_state p hp n, List.range_succ, List.map_append]
    unfold ping
    have h : ((p.sequence + n) % 65536 + 1) % 65536 = (p.sequence + n + 1) % 65536 := by
      omega
    simp [h]

/-- C3: sequence monotonicity. For every session and every `N`, the `N`
consecutive successful `send_request` calls return the sequence numbers
`1 % 2^16, 2 % 2^16, ..., N % 2^16`: starting at 1, increasing by 1 per
request, and wrapping at the 16-bit boundary after 65535. -/
theorem sequence_monotonicity (sid n : Nat) :
    (pingRuns (Pinger.new sid) n).2 =
      (List.range n).map (fun i => some ((i + 1) % 65536)) := by
  rw [pingRuns_returns (Pinger.new sid) (by norm_num [Pinger.new]) n]
  simp [Pinger.new]

/-- C9: a failed send still consumes its sequence number. The counter advances
by 1 even when the transport send fails (`none` returned), and the `j`-th
request issued after the failure (for any `j` short of a full 16-bit
wrap-around) returns `failed + j`, never the failed number itself. -/
theorem failed_send_consumes_sequence (p : Pinger) (j : Nat)
    (h1 : 1 ≤ j) (h2 : j < 65536) :
    (ping p false).2 = none ∧
    (ping p false).1.sequence = (p.sequence + 1) % 65536 ∧
    (ping (pingRuns (ping p false).1 (j - 1)).1 true).2 =
      some ((p.sequence + 1 + j) % 65536) ∧
    (p.sequence + 1 + j) % 65536 ≠ (p.sequence + 1) % 65536 := by
  have h4 : (p.sequence + 1 + j) % 65536 ≠ (p.sequence + 1) % 65536 := by omega
  refine ⟨rfl, rfl, ?_, h4⟩
  rw [pingRuns_state (ping p false).1 (by unfold ping; simp only []; omega) (j - 1)]
  unfold ping
  simp only [if_true, Option.some.injEq]
  simp only [Pinger.mk.injEq] at *
  omega

/-- C9 witness: concrete session with counter 0; the failed send consumes
sequence number 1 and the next request returns 2. -/
theorem failed_send_consumes_sequence_witness :
    (ping ⟨7, 0⟩ false).2 = none ∧
    (ping ⟨7, 0⟩ false).1.sequence = (0 + 1) % 65536 ∧
    (ping (pingRuns (ping ⟨7, 0⟩ false).1 (1 - 1)).1 true).2 =
      some ((0 + 1 + 1) % 65536) ∧
    (0 + 1 + 1) % 65536 ≠ (0 + 1) % 65536 :=
  failed_send_consumes_sequence ⟨7, 0⟩ 1 (by decide) (by decide)

/-- Wire structure of src/packet.rs lines 3-10, decoded by bincode configured
big-endian with fixed-width integers. -/
structure ICMPEchoPacket where
  message_type : Nat
  message_code : Nat
  checksum : Nat
  identifier : Nat
  sequence_num : Nat
deriving DecidableEq, Repr

/-- Wire structure of src/packet.rs lines 12-25 (big-endian). -/
structure IPv4Header where
  version_and_header_len : Nat
  type_of_service : Nat
  datagram_length : Nat
  ip_identifier : Nat
  flags_and_5frag_offset : Nat
  rest_of_frag_offset : Nat
  ttl : Nat
  protocol : Nat
  checksum : Nat
  source_ip : Nat
  destination_ip : Nat
deriving DecidableEq, Repr

/-- Normalized receive-side header (src/ping.rs lines 13-17). -/
structure GenericIPHeader where
  datagram_length : Nat
  data_offset : Nat
  ttl : Option Nat
deriving DecidableEq, Repr

/-- Reply classification (src/ping.rs lines 19-23). -/
inductive ReplyType where
  | Reply : ReplyType
  | TimeLimitExceeded : ReplyType
deriving DecidableEq, Repr

/-- The fields of `PongResult` (src/ping.rs lines 25-34) that the core
computes from the packet bytes. `address`, `hostname` and `rtt` come from the
external transport, reverse-lookup collaborator and wall clock and are not
modelled. -/
structure PongResult where
  sequence : Nat
  ttl : Option Nat
  size : Nat
  mtype : ReplyType
deriving DecidableEq, Repr

/-- ICMP type constants (src/ping.rs lines 46-51). -/
def ECHO_REQUEST_V4 : Nat := 8

def ECHO_REQUEST_V6 : Nat := 128

def ECHO_REPLY_V4 : Nat := 0

def ECHO_REPLY_V6 : Nat := 129

def TIMEOUT_V4 : Nat := 11

def TIMEOUT_V6 : Nat := 3

/-- The big-endian 16-bit field starting at byte `i`. -/
def word16At (l : List Nat) (i : Nat) : Nat := 256 * byteAt l i + byteAt l (i + 1)

/-- The big-endian 32-bit field starting at byte `i`. -/
def word32At (l : List Nat) (i : Nat) : Nat :=
  16777216 * byteAt l i + 65536 * byteAt l (i + 1) + 256 * byteAt l (i + 2) +
    byteAt l (i + 3)

/-- bincode (big-endian, fixed width) decode of `ICMPEchoPacket`: reads the
8 header bytes in field order, failing only when the input is shorter than
the structure. -/
def deserializeICMP (buf : List Nat) : Option ICMPEchoPacket :=
  if 8 ≤ buf.length then
    some { message_type := byteAt buf 0, message_code := byteAt buf 1,
           checksum := word16At buf 2, identifier := word16At buf 4,
           sequence_num := word16At buf 6 }
  else none

/-- bincode (big-endian, fixed width) decode of `IPv4Header`: reads the 20
header bytes in field order, failing only when the input is shorter than the
structure. -/
def deserializeIPv4 (buf : List Nat) : Option IPv4Header :=
  if 20 ≤ buf.length then
    some { version_and_header_len := byteAt buf 0, type_of_service := byteAt buf 1,
           datagram_length := word16At buf 2, ip_identifier := word16At buf 4,
           flags_and_5frag_offset := byteAt buf 6, rest_of_frag_offset := byteAt buf 7,
           ttl := byteAt buf 8, protocol := byteAt buf 9, checksum := word16At buf 10,
           source_ip := word32At buf 12, destination_ip := word32At buf 16 }
  else none

/-- The buffer `receive_pong` parses (src/ping.rs lines 99-101): a fresh
4096-byte zero-initialized array into which the transport copied the datagram
(truncated at 4096); the number of bytes read is ignored, so bytes past the
datagram remain zero. -/
def recvBuffer (dgram : List Nat) : List Nat :=
  dgram.take 4096 ++ List.replicate (4096 - min dgram.length 4096) 0

/-- Rust slice-from syntax `&buf[i..]` (src/ping.rs line 131): panics
(`none`) when the start index exceeds the buffer length. -/
def sliceFrom (l : List Nat) (i : Nat) : Option (List Nat) :=
  if i ≤ l.length then some (l.drop i) else none

/-- The normalized IP header computed in src/ping.rs lines 103-128: for IPv6
the network header is not observable (fixed length 8, offset 0, no ttl); for
IPv4 it is decoded from the buffer, with `data_offset = 4 * (IHL nibble)`. -/
def genHeader (v6 : Bool) (buf : List Nat) : Option GenericIPHeader :=
  if v6 then some { datagram_length := 8, data_offset := 0, ttl := none }
  else
    match deserializeIPv4 buf with
    | none => none
    | some ip =>
      some { datagram_length := ip.datagram_length,
             data_offset := 4 * (ip.version_and_header_len &&& 0x0F),
             ttl := some ip.ttl }

/-- Packet-type classification (src/ping.rs lines 140-149): `none` means an
unrecognized ICMP type, handled by `continue`. -/
def classify (v6 : Bool) (t : Nat) : Option ReplyType :=
  if v6 then
    if t = ECHO_REPLY_V6 then some ReplyType.Reply
    else if t = TIMEOUT_V6 then some ReplyType.TimeLimitExceeded
    else none
  else
    if t = ECHO_REPLY_V4 then some ReplyType.Reply
    else if t = TIMEOUT_V4 then some ReplyType.TimeLimitExceeded
    else none

/-- The ICMP header a received datagram decodes to, through the same pipeline
as `receive_pong`: normalized IP header, slice at `data_offset`, ICMP decode. -/
def icmpOf (v6 : Bool) (dgram : List Nat) : Option ICMPEchoPacket :=
  match genHeader v6 (recvBuffer dgram) with
  | none => none
  | some h =>
    match sliceFrom (recvBuffer dgram) h.data_offset with
    | none => none
    | some s => deserializeICMP s

/-- Outcome of one iteration of the `receive_pong` loop body on a received
datagram. -/
inductive RecvOutcome where
  | accepted : PongResult → RecvOutcome
  | discard : RecvOutcome
  | malformed : RecvOutcome
deriving DecidableEq, Repr

/-- Embedding of the body of the `receive_pong` loop (src/ping.rs lines
103-167) applied to one received datagram: decode the IP header (IPv4 decode
failure is the `MalformedPacket` error), slice the buffer at `data_offset`
(a Rust panic if out of range, `none` here), decode the ICMP header, classify,
filter Reply packets by identifier and sequence (`continue` = `discard`), and
otherwise build the `PongResult`. The `size` field is the Rust `u16`
subtraction `datagram_length - data_offset as u16`, which wraps on underflow
(release semantics), hence the `(65536 + a - b) % 65536` form. -/
def processPacket (v6 : Bool) (session seqnum : Nat) (dgram : List Nat) :
    Option RecvOutcome :=
  match genHeader v6 (recvBuffer dgram) with
  | none => some RecvOutcome.malformed
  | some header =>
    match sliceFrom (recvBuffer dgram) header.data_offset with
    | none => none
    | some icmpBytes =>
      match deserializeICMP icmpBytes with
      | none => some RecvOutcome.malformed
      | some icmp =>
        match classify v6 icmp.message_type with
        | none => some RecvOutcome.discard
        | some mtype =>
          if mtype = ReplyType.Reply ∧ icmp.identifier ≠ session then
            some RecvOutcome.discard
          else if mtype = ReplyType.Reply ∧ icmp.sequence_num ≠ seqnum then
            some RecvOutcome.discard
          else
            some (RecvOutcome.accepted
              { sequence := icmp.sequence_num,
                ttl := header.ttl,
                size := (65536 + header.datagram_length - header.data_offset) % 65536,
                mtype := mtype })

/-- Result of a whole `receive_pong` call. `panicked` marks a Rust panic
inside the loop body (never reached, see C6); `timeoutErr` is the `WouldBlock`
error surfaced when the armed read timeout expires. -/
inductive LoopResult where
  | pong : PongResult → LoopResult
  | timeoutErr : LoopResult
  | malformedErr : LoopResult
  | panicked : LoopResult
deriving DecidableEq, Repr

/-- Embedding of the `receive_pong` loop (src/ping.rs lines 92-168) over an
abstract transport trace: each event is an (arrival time, datagram) pair, in
order. Each iteration arms the read timeout with `deadline - now` (saturating,
as `Instant::duration_since` saturates at zero) and blocks: if the next
datagram arrives after the armed window the transport fails with the timeout
error; otherwise the loop body processes it, and on `continue` the loop
re-enters at the delivery time. Returns the result, the finish time, and the
log of (now, armed timeout) pairs, one per iteration. -/
def runLoop (v6 : Bool) (sid expseq deadline : Nat) :
    Nat → List (Nat × List Nat) → LoopResult × Nat × List (Nat × Nat)
  | now, [] => (LoopResult.timeoutErr, now + (deadline - now), [(now, deadline - now)])
  | now, (arr, dg) :: rest =>
    if now + (deadline - now) < max now arr then
      (LoopResult.timeoutErr, now + (deadline - now), [(now, deadline - now)])
    else
      match processPacket v6 sid expseq dg with
      | none => (LoopResult.panicked, max now arr, [(now, deadline - now)])
      | some (RecvOutcome.accepted r) => (LoopResult.pong r, max now arr, [(now, deadline - now)])
      | some RecvOutcome.malformed => (LoopResult.malformedErr, max now arr, [(now, deadline - now)])
      | some RecvOutcome.discard =>
        ((runLoop v6 sid expseq deadline (max now arr) rest).1,
         (runLoop v6 sid expseq deadline (max now arr) rest).2.1,
         (now, deadline - now) :: (runLoop v6 sid expseq deadline (max now arr) rest).2.2)

/-- Embedding of `receive_pong` entry (src/ping.rs lines 92-94): the absolute
deadline is computed once, at call entry, as `begin_time + timeout`. -/
def receive_pong (v6 : Bool) (sid expseq t0 timeout : Nat)
    (events : List (Nat × List Nat)) : LoopResult × Nat × List (Nat × Nat) :=
  runLoop v6 sid expseq (t0 + timeout) t0 events

/-- The parsed buffer always has length 4096, whatever was received. -/
theorem recvBuffer_length (dgram : List Nat) : (recvBuffer dgram).length = 4096 := by
  unfold recvBuffer
  rw [List.length_append, List.length_take, List.length_replicate]
  omega

/-- IPv4 decode succeeds on any buffer of at least 20 bytes. -/
theorem deserializeIPv4_isSome (buf : List Nat) (h : 20 ≤ buf.length) :
    (deserializeIPv4 buf).isSome := by
  unfold deserializeIPv4
  rw [if_pos h]
  rfl

/-- ICMP decode succeeds on any buffer of at least 8 bytes. -/
theorem deserializeICMP_isSome (buf : List Nat) (h : 8 ≤ buf.length) :
    (deserializeICMP buf).isSome := by
  unfold deserializeICMP
  rw [if_pos h]
  rfl

/-- The normalized header always decodes from the 4096-byte parse buffer, and
its payload offset is at most 60 (IHL nibble at most 15, times 4). -/
theorem genHeader_some (v6 : Bool) (dgram : List Nat) :
    ∃ h, genHeader v6 (recvBuffer dgram) = some h ∧ h.data_offset ≤ 60 := by
  cases v6
  · obtain ⟨ip, hip⟩ := Option.isSome_iff_exists.mp
      (deserializeIPv4_isSome (recvBuffer dgram) (by rw [recvBuffer_length]; norm_num))
    refine ⟨{ datagram_length := ip.datagram_length,
              data_offset := 4 * (ip.version_and_header_len &&& 0x0F),
              ttl := some ip.ttl }, ?_, ?_⟩
    · unfold genHeader
      rw [if_neg (by simp)]
      simp only [hip]
    · have hand : ip.version_and_header_len &&& 0x0F ≤ 15 := Nat.and_le_right
      show 4 * (ip.version_and_header_len &&& 0x0F) ≤ 60
      omega
  · exact ⟨{ datagram_length := 8, data_offset := 0, ttl := none },
      by unfold genHeader; rw [if_pos rfl], by norm_num⟩

/-- Slicing the 4096-byte buffer at the (bounded) payload offset succeeds. -/
theorem sliceFrom_recvBuffer (dgram : List Nat) (i : Nat) (h : i ≤ 4096) :
    sliceFrom (recvBuffer dgram) i = some ((recvBuffer dgram).drop i) := by
  unfold sliceFrom
  rw [if_pos (by rw [recvBuffer_length]; omega)]

/-- Once the received datagram decodes to ICMP header `p`, the loop body is
exactly the classification-and-filter stage applied to `p`. -/
theorem processPacket_classified (v6 : Bool) (sid expseq : Nat) (dgram : List Nat)
    (p : ICMPEchoPacket) (hp : icmpOf v6 dgram = some p) :
    ∃ h, genHeader v6 (recvBuffer dgram) = some h ∧
      processPacket v6 sid expseq dgram =
        (match classify v6 p.message_type with
         | none => some RecvOutcome.discard
         | some mtype =>
           if mtype = ReplyType.Reply ∧ p.identifier ≠ sid then some RecvOutcome.discard
           else if mtype = ReplyType.Reply ∧ p.sequence_num ≠ expseq then
             some RecvOutcome.discard
           else some (RecvOutcome.accepted
             { sequence := p.sequence_num, ttl := h.ttl,
               size := (65536 + h.datagram_length - h.data_offset) % 65536,
               mtype := mtype })) := by
  obtain ⟨h, hh, hoff⟩ := genHeader_some v6 dgram
  refine ⟨h, hh, ?_⟩
  unfold icmpOf at hp
  simp only [hh, sliceFrom_recvBuffer dgram h.data_offset (by omega)] at hp
  unfold processPacket
  simp only [hh, sliceFrom_recvBuffer dgram h.data_offset (by omega), hp]

/-- The loop body always returns an outcome: every slice index is in range. -/
theorem processPacket_isSome (v6 : Bool) (sid expseq : Nat) (dgram : List Nat) :
    (processPacket v6 sid expseq dgram).isSome := by
  obtain ⟨h, hh, hoff⟩ := genHeader_some v6 dgram
  unfold processPacket
  obtain ⟨p, hp⟩ := Option.isSome_iff_exists.mp
    (deserializeICMP_isSome ((recvBuffer dgram).drop h.data_offset)
      (by rw [List.length_drop, recvBuffer_length]; omega))
  simp only [hh, sliceFrom_recvBuffer dgram h.data_offset (by omega), hp]
  cases hcl : classify v6 p.message_type with
  | none => rfl
  | some mtype =>
    repeat' split
    all_goals rfl

/-- No iteration of the receive loop can panic. -/
theorem runLoop_never_panics (v6 : Bool) (sid expseq deadline : Nat)
    (events : List (Nat × List Nat)) :
    ∀ now, (runLoop v6 sid expseq deadline now events).1 ≠ LoopResult.panicked := by
  induction events with
  | nil =>
    intro now
    unfold runLoop
    simp
  | cons e rest ih =>
    intro now
    obtain ⟨arr, dg⟩ := e
    unfold runLoop
    split
    · simp
    · have hs := processPacket_isSome v6 sid expseq dg
      cases hpp : processPacket v6 sid expseq dg with
      | none =>
        rw [hpp] at hs
        simp at hs
      | some out =>
        cases out with
        | accepted r => simp [hpp]
        | malformed => simp [hpp]
        | discard =>
          simp only [hpp]
          exact ih (max now arr)

/-- C6: processing a received packet never panics. For every transport trace
(arbitrary, possibly adversarial datagrams — including an IPv4 header whose
total_length is smaller than 4*IHL, where the u16 size subtraction wraps
around) the receive call produces a result or error: it never aborts. -/
theorem receive_never_panics (v6 : Bool) (sid expseq t0 timeout : Nat)
    (events : List (Nat × List Nat)) :
    (receive_pong v6 sid expseq t0 timeout events).1 ≠ LoopResult.panicked :=
  runLoop_never_panics v6 sid expseq (t0 + timeout) events t0

/-- Adversarial datagram for the C6 witness: IPv4 header with IHL = 15
(payload offset 60) but total_length = 0, followed by 40 bytes of zero
options padding and a TimeLimitExceeded ICMP header at offset 60, so the
accepted result's size subtraction underflows (and wraps). -/
def c6_datagram : List Nat :=
  [79, 0, 0, 0, 0, 0, 0, 0, 64, 1, 0, 0, 0, 0, 0, 0, 0, 0, 0, 0,
   0, 0, 0, 0, 0, 0, 0, 0, 0, 0, 0, 0, 0, 0, 0, 0, 0, 0, 0, 0,
   0, 0, 0, 0, 0, 0, 0, 0, 0, 0, 0, 0, 0, 0, 0, 0, 0, 0, 0, 0,
   11, 0, 0, 0, 0, 0, 0, 0]

/-- C6 witness: the trace delivering exactly the underflowing datagram. -/
theorem receive_never_panics_witness :
    (receive_pong false 0x1234 1 0 5 [(0, c6_datagram)]).1 ≠ LoopResult.panicked :=
  receive_never_panics false 0x1234 1 0 5 [(0, c6_datagram)]

/-- C10: the receive path always parses the full fresh 4096-byte
zero-initialized buffer, ignoring how many bytes were actually read: the
short-buffer MalformedPacket path is unreachable (both decodes always fit),
the ICMP pipeline always yields a header, and every byte past the received
datagram parses as zero. -/
theorem full_buffer_parse (v6 : Bool) (sid expseq : Nat) (dgram : List Nat) :
    processPacket v6 sid expseq dgram ≠ some RecvOutcome.malformed ∧
    (icmpOf v6 dgram).isSome ∧
    ∀ i, dgram.length ≤ i → i < 4096 → byteAt (recvBuffer dgram) i = 0 := by
  obtain ⟨h, hh, hoff⟩ := genHeader_some v6 dgram
  obtain ⟨p, hp⟩ := Option.isSome_iff_exists.mp
    (deserializeICMP_isSome ((recvBuffer dgram).drop h.data_offset)
      (by rw [List.length_drop, recvBuffer_length]; omega))
  refine ⟨?_, ?_, ?_⟩
  · unfold processPacket
    simp only [hh, sliceFrom_recvBuffer dgram h.data_offset (by omega), hp]
    cases hcl : classify v6 p.message_type with
    | none => simp
    | some mtype =>
      repeat' split
      all_goals simp
  · unfold icmpOf
    simp only [hh, sliceFrom_recvBuffer dgram h.data_offset (by omega), hp]
    rfl
  · intro i hi hi2
    unfold recvBuffer byteAt
    rw [List.getD_eq_getElem?_getD, List.getElem?_append_right (by
      rw [List.length_take]; omega)]
    rw [List.getElem?_replicate]
    rw [if_pos (by rw [List.length_take]; omega)]
    rfl

/-- C10 witness: a one-byte datagram still decodes, with its missing bytes
read as zeros. -/
theorem full_buffer_parse_witness :
    processPacket false 5 1 [1] ≠ some RecvOutcome.malformed ∧
    (icmpOf false [1]).isSome ∧
    ∀ i, ([1] : List Nat).length ≤ i → i < 4096 → byteAt (recvBuffer [1]) i = 0 :=
  full_buffer_parse false 5 1 [1]

/-- Every reached iteration arms the read timeout with exactly the remaining
time to the single deadline, and a timeout result lands exactly at the
deadline. -/
theorem runLoop_deadline (v6 : Bool) (sid expseq deadline : Nat)
    (events : List (Nat × List Nat)) :
    ∀ now, now ≤ deadline →
      (∀ pr ∈ (runLoop v6 sid expseq deadline now events).2.2,
        pr.1 + pr.2 = deadline) ∧
      ((runLoop v6 sid expseq deadline now events).1 = LoopResult.timeoutErr →
        (runLoop v6 sid expseq deadline now events).2.1 = deadline) := by
  induction events with
  | nil =>
    intro now hnow
    unfold runLoop
    refine ⟨?_, ?_⟩
    · intro pr hpr
      simp only [List.mem_singleton] at hpr
      rw [hpr]
      show now + (deadline - now) = deadline
      omega
    · intro _
      show now + (deadline - now) = deadline
      omega
  | cons e rest ih =>
    intro now hnow
    obtain ⟨arr, dg⟩ := e
    unfold runLoop
    split
    · refine ⟨?_, ?_⟩
      · intro pr hpr
        simp only [List.mem_singleton] at hpr
        rw [hpr]
        show now + (deadline - now) = deadline
        omega
      · intro _
        show now + (deadline - now) = deadline
        omega
    · rename_i hdeliv
      have harr : max now arr ≤ deadline := by omega
      cases hpp : processPacket v6 sid expseq dg with
      | none =>
        refine ⟨?_, ?_⟩
        · intro pr hpr
          simp only [hpp, List.mem_singleton] at hpr
          rw [hpr]
          show now + (deadline - now) = deadline
          omega
        · simp only [hpp]
          intro hcon
          cases hcon
      | some out =>
        cases out with
        | accepted r =>
          refine ⟨?_, ?_⟩
          · intro pr hpr
            simp only [hpp, List.mem_singleton] at hpr
            rw [hpr]
            show now + (deadline - now) = deadline
            omega
          · simp only [hpp]
            intro hcon
            cases hcon
        | malformed =>
          refine ⟨?_, ?_⟩
          · intro pr hpr
            simp only [hpp, List.mem_singleton] at hpr
            rw [hpr]
            show now + (deadline - now) = deadline
            omega
          · simp only [hpp]
            intro hcon
            cases hcon
        | discard =>
          refine ⟨?_, ?_⟩
          · intro pr hpr
            simp only [hpp, List.mem_cons] at hpr
            cases hpr with
            | inl hpr =>
              rw [hpr]
              show now + (deadline - now) = deadline
              omega
            | inr hpr =>
              exact (ih (max now arr) harr).1 pr hpr
          · simp only [hpp]
            exact (ih (max now arr) harr).2

/-- C8: the deadline is absolute and shared. `receive_matching` computes one
absolute deadline `t0 + T` at call entry; every iteration re-arms the
transport read timeout with exactly the remaining time to that same deadline
(never extending it), and a timeout result is reported exactly at the
deadline, measured from call entry, regardless of discarded packets. -/
theorem absolute_deadline (v6 : Bool) (sid expseq t0 T : Nat)
    (events : List (Nat × List Nat)) (pr : Nat × Nat)
    (hpr : pr ∈ (receive_pong v6 sid expseq t0 T events).2.2) :
    pr.1 + pr.2 = t0 + T ∧
    pr.2 = (t0 + T) - pr.1 ∧
    ((receive_pong v6 sid expseq t0 T events).1 = LoopResult.timeoutErr →
      (receive_pong v6 sid expseq t0 T events).2.1 = t0 + T) := by
  have h := runLoop_deadline v6 sid expseq (t0 + T) events t0 (by omega)
  have h1 := h.1 pr hpr
  exact ⟨h1, by omega, h.2⟩

/-- Background-noise datagram for the C8 witness: valid IPv4 header, ICMP
type 99, which is neither an echo reply nor time-exceeded, so the loop
discards it and keeps waiting under the same deadline. -/
def c8_datagram : List Nat :=
  [69, 0, 0, 28, 0, 0, 0, 0, 64, 1, 0, 0, 0, 0, 0, 0, 0, 0, 0, 0,
   99, 0, 0, 0, 0, 0, 0, 1]

/-- Reading through the 4096-byte parse buffer at an in-range index is the
same as reading the datagram directly (missing bytes read as zero in both). -/
theorem byteAt_recvBuffer (dgram : List Nat) (i : Nat) (h : i < 4096) :
    byteAt (recvBuffer dgram) i = byteAt dgram i := by
  unfold byteAt recvBuffer
  rw [List.getD_eq_getElem?_getD, List.getD_eq_getElem?_getD]
  by_cases hlen : i < dgram.length
  · rw [List.getElem?_append_left (by rw [List.length_take]; omega)]
    rw [List.getElem?_take_of_lt (by omega)]
  · rw [List.getElem?_append_right (by rw [List.length_take]; omega)]
    rw [List.getElem?_replicate, if_pos (by rw [List.length_take]; omega)]
    rw [List.getElem?_eq_none (by omega)]
    rfl

/-- Reading in a dropped suffix shifts the index. -/
theorem byteAt_drop (l : List Nat) (n i : Nat) :
    byteAt (l.drop n) i = byteAt l (n + i) := by
  unfold byteAt
  rw [List.getD_eq_getElem?_getD, List.getD_eq_getElem?_getD, List.getElem?_drop]

/-- ICMP decode of the parse-buffer suffix at a header offset, expressed over
the raw datagram bytes. -/
theorem deserializeICMP_drop_recvBuffer (d : List Nat) (off : Nat) (hoff : off ≤ 60) :
    deserializeICMP ((recvBuffer d).drop off) = some
      { message_type := byteAt d off, message_code := byteAt d (off + 1),
        checksum := word16At d (off + 2), identifier := word16At d (off + 4),
        sequence_num := word16At d (off + 6) } := by
  unfold deserializeICMP
  rw [if_pos (by rw [List.length_drop, recvBuffer_length]; omega)]
  unfold word16At
  simp only [byteAt_drop]
  rw [byteAt_recvBuffer d (off + 0) (by omega), byteAt_recvBuffer d (off + 1) (by omega),
    byteAt_recvBuffer d (off + 2) (by omega), byteAt_recvBuffer d (off + (2 + 1)) (by omega),
    byteAt_recvBuffer d (off + 4) (by omega), byteAt_recvBuffer d (off + (4 + 1)) (by omega),
    byteAt_recvBuffer d (off + 6) (by omega), byteAt_recvBuffer d (off + (6 + 1)) (by omega)]
  norm_num [Nat.add_assoc]

/-- Evaluation of the IPv4 decode stage over the raw datagram bytes. -/
theorem deserializeIPv4_recvBuffer (d : List Nat) :
    deserializeIPv4 (recvBuffer d) = some
      { version_and_header_len := byteAt d 0, type_of_service := byteAt d 1,
        datagram_length := word16At d 2, ip_identifier := word16At d 4,
        flags_and_5frag_offset := byteAt d 6, rest_of_frag_offset := byteAt d 7,
        ttl := byteAt d 8, protocol := byteAt d 9, checksum := word16At d 10,
        source_ip := word32At d 12, destination_ip := word32At d 16 } := by
  unfold deserializeIPv4
  rw [if_pos (by rw [recvBuffer_length]; norm_num)]
  unfold word16At word32At
  simp [byteAt_recvBuffer]

/-- Evaluation of the whole IPv4 receive pipeline over raw datagram bytes. -/
theorem recv_pipeline_eval_v4 (d : List Nat) :
    genHeader false (recvBuffer d) = some
      { datagram_length := word16At d 2,
        data_offset := 4 * (byteAt d 0 &&& 0x0F),
        ttl := some (byteAt d 8) } ∧
    icmpOf false d = some
      { message_type := byteAt d (4 * (byteAt d 0 &&& 0x0F)),
        message_code := byteAt d (4 * (byteAt d 0 &&& 0x0F) + 1),
        checksum := word16At d (4 * (byteAt d 0 &&& 0x0F) + 2),
        identifier := word16At d (4 * (byteAt d 0 &&& 0x0F) + 4),
        sequence_num := word16At d (4 * (byteAt d 0 &&& 0x0F) + 6) } := by
  have hoffb : byteAt d 0 &&& 0x0F ≤ 15 := Nat.and_le_right
  have hgen : genHeader false (recvBuffer d) = some
      { datagram_length := word16At d 2,
        data_offset := 4 * (byteAt d 0 &&& 0x0F),
        ttl := some (byteAt d 8) } := by
    unfold genHeader
    rw [if_neg (by simp)]
    simp only [deserializeIPv4_recvBuffer]
  refine ⟨hgen, ?_⟩
  unfold icmpOf
  simp only [hgen, sliceFrom_recvBuffer d (4 * (byteAt d 0 &&& 0x0F)) (by omega)]
  exact deserializeICMP_drop_recvBuffer d _ (by omega)

/-- The background-noise datagram decodes to ICMP type 99. -/
theorem c8_icmp_eval : icmpOf false c8_datagram = some ⟨99, 0, 0, 0, 1⟩ := by
  rw [(recv_pipeline_eval_v4 c8_datagram).2]
  decide

/-- The background-noise datagram is discarded by the filter. -/
theorem c8_discard : processPacket false 1 1 c8_datagram = some RecvOutcome.discard := by
  obtain ⟨h, hh, hred⟩ :=
    processPacket_classified false 1 1 c8_datagram ⟨99, 0, 0, 0, 1⟩ c8_icmp_eval
  rw [hred]
  have hcl : classify false (99 : Nat) = none := by decide
  simp only [hcl]

/-- The armed-timeout log of the C8 witness trace. -/
theorem c8_log_eval :
    (receive_pong false 1 1 0 10 [(2, c8_datagram)]).2.2 = [(0, 10), (2, 8)] := by
  unfold receive_pong runLoop
  rw [if_neg (by norm_num)]
  simp only [c8_discard]
  unfold runLoop
  norm_num

/-- C8 witness: one discarded packet at time 2 under deadline 10; the second
iteration is armed with the remaining 8, and the timeout lands at 10. -/
theorem absolute_deadline_witness :
    (2, 8).1 + (2, 8).2 = 0 + 10 ∧
    (2, 8).2 = (0 + 10) - (2, 8).1 ∧
    ((receive_pong false 1 1 0 10 [(2, c8_datagram)]).1 = LoopResult.timeoutErr →
      (receive_pong false 1 1 0 10 [(2, c8_datagram)]).2.1 = 0 + 10) :=
  absolute_deadline false 1 1 0 10 [(2, c8_datagram)] (2, 8)
    (by rw [c8_log_eval]; decide)

/-- C4: reply matching filter. A packet whose ICMP header classifies as Reply
is accepted if and only if its identifier equals the session identifier and
its sequence equals the expected sequence; a mismatch on either field makes
the loop body discard it, and the receive loop continues on the remaining
trace under the same deadline. -/
theorem reply_filter (v6 : Bool) (sid expseq : Nat) (dgram : List Nat)
    (p : ICMPEchoPacket) (hp : icmpOf v6 dgram = some p)
    (hty : p.message_type = (if v6 then ECHO_REPLY_V6 else ECHO_REPLY_V4)) :
    ((∃ r, processPacket v6 sid expseq dgram = some (RecvOutcome.accepted r)) ↔
      (p.identifier = sid ∧ p.sequence_num = expseq)) ∧
    ((p.identifier ≠ sid ∨ p.sequence_num ≠ expseq) →
      processPacket v6 sid expseq dgram = some RecvOutcome.discard) ∧
    ((p.identifier ≠ sid ∨ p.sequence_num ≠ expseq) →
      ∀ deadline now arr rest, max now arr ≤ now + (deadline - now) →
        (runLoop v6 sid expseq deadline now ((arr, dgram) :: rest)).1 =
          (runLoop v6 sid expseq deadline (max now arr) rest).1) := by
  obtain ⟨h, hh, hred⟩ := processPacket_classified v6 sid expseq dgram p hp
  have hcl : classify v6 p.message_type = some ReplyType.Reply := by
    cases v6
    · simp at hty
      simp [classify, hty]
    · simp at hty
      simp [classify, hty]
  simp only [hcl] at hred
  have hdisc : (p.identifier ≠ sid ∨ p.sequence_num ≠ expseq) →
      processPacket v6 sid expseq dgram = some RecvOutcome.discard := by
    intro hcon
    rw [hred]
    rcases hcon with hc | hc
    · rw [if_pos ⟨trivial, hc⟩]
    · by_cases hid : p.identifier = sid
      · rw [if_neg (by simp [hid]), if_pos ⟨trivial, hc⟩]
      · rw [if_pos ⟨trivial, hid⟩]
  refine ⟨?_, hdisc, ?_⟩
  · constructor
    · rintro ⟨r, hr⟩
      by_cases hid : p.identifier = sid
      · by_cases hseq : p.sequence_num = expseq
        · exact ⟨hid, hseq⟩
        · rw [hdisc (Or.inr hseq)] at hr
          simp at hr
      · rw [hdisc (Or.inl hid)] at hr
        simp at hr
    · rintro ⟨hid, hseq⟩
      rw [hred, if_neg (by simp [hid]), if_neg (by simp [hseq])]
      exact ⟨_, rfl⟩
  · intro hcon deadline now arr rest hdeliv
    conv_lhs => rw [runLoop]
    rw [if_neg (not_lt.mpr hdeliv)]
    simp only [hdisc hcon]

/-- Test datagram for C4: a well-formed IPv4 echo reply whose identifier
0xAABB and sequence 2 do not match session 1 / expected sequence 1. -/
def c4_datagram : List Nat :=
  [69, 0, 0, 28, 0, 0, 0, 0, 64, 1, 0, 0, 0, 0, 0, 0, 0, 0, 0, 0,
   0, 0, 0, 0, 170, 187, 0, 2]

/-- C4 witness: the mismatched reply is discarded and never accepted. -/
theorem reply_filter_witness :
    ((∃ r, processPacket false 1 1 c4_datagram = some (RecvOutcome.accepted r)) ↔
      ((43707 : Nat) = 1 ∧ (2 : Nat) = 1)) ∧
    (((43707 : Nat) ≠ 1 ∨ (2 : Nat) ≠ 1) →
      processPacket false 1 1 c4_datagram = some RecvOutcome.discard) ∧
    (((43707 : Nat) ≠ 1 ∨ (2 : Nat) ≠ 1) →
      ∀ deadline now arr rest, max now arr ≤ now + (deadline - now) →
        (runLoop false 1 1 deadline now ((arr, c4_datagram) :: rest)).1 =
          (runLoop false 1 1 deadline (max now arr) rest).1) :=
  reply_filter false 1 1 c4_datagram ⟨0, 0, 0, 43707, 2⟩
    (by rw [(recv_pipeline_eval_v4 c4_datagram).2]; decide) (by decide)

/-- C5: TimeLimitExceeded replies bypass the identifier/sequence filter. Any
packet classifying as time-exceeded (ICMP type 11 for IPv4, type 3 for IPv6)
is accepted and reported as TimeLimitExceeded whatever its identifier and
sequence fields and whatever the session expects. -/
theorem tle_bypass (v6 : Bool) (sid expseq : Nat) (dgram : List Nat)
    (p : ICMPEchoPacket) (hp : icmpOf v6 dgram = some p)
    (hty : p.message_type = (if v6 then TIMEOUT_V6 else TIMEOUT_V4)) :
    ∃ r, processPacket v6 sid expseq dgram = some (RecvOutcome.accepted r) ∧
      r.mtype = ReplyType.TimeLimitExceeded ∧ r.sequence = p.sequence_num := by
  obtain ⟨h, hh, hred⟩ := processPacket_classified v6 sid expseq dgram p hp
  have hcl : classify v6 p.message_type = some ReplyType.TimeLimitExceeded := by
    cases v6
    · simp at hty
      simp [classify, hty, ECHO_REPLY_V4, TIMEOUT_V4]
    · simp at hty
      simp [classify, hty, ECHO_REPLY_V6, TIMEOUT_V6]
  simp only [hcl] at hred
  rw [if_neg (by simp), if_neg (by simp)] at hred
  exact ⟨_, hred, rfl, rfl⟩

/-- Test datagram for C5: IPv4 time-exceeded notice with unrelated identifier
0xDEAD and sequence 0xBEEF. -/
def c5_datagram : List Nat :=
  [69, 0, 0, 28, 0, 0, 0, 0, 64, 1, 0, 0, 0, 0, 0, 0, 0, 0, 0, 0,
   11, 0, 0, 0, 222, 173, 190, 239]

/-- C5 witness: the unrelated time-exceeded notice is accepted. -/
theorem tle_bypass_witness :
    ∃ r, processPacket false 1 1 c5_datagram = some (RecvOutcome.accepted r) ∧
      r.mtype = ReplyType.TimeLimitExceeded ∧ r.sequence = (48879 : Nat) :=
  tle_bypass false 1 1 c5_datagram ⟨11, 0, 0, 57005, 48879⟩
    (by rw [(recv_pipeline_eval_v4 c5_datagram).2]; decide) (by decide)

/-- The C7 scenario datagram: minimal 20-byte IPv4 header with ttl 64 and
total_length 28 wrapping an echo reply with identifier 0x1234, sequence 1. -/
def c7_datagram : List Nat :=
  [69, 0, 0, 28, 0, 0, 0, 0, 64, 1, 0, 0, 0, 0, 0, 0, 0, 0, 0, 0,
   0, 0, 0, 0, 18, 52, 0, 1]

/-- The C7 datagram decodes to the expected normalized header. -/
theorem c7_gen_eval :
    genHeader false (recvBuffer c7_datagram) = some ⟨28, 20, some 64⟩ := by
  rw [(recv_pipeline_eval_v4 c7_datagram).1]
  decide

/-- The C7 datagram decodes to the expected ICMP echo reply header. -/
theorem c7_icmp_eval : icmpOf false c7_datagram = some ⟨0, 0, 0, 4660, 1⟩ := by
  rw [(recv_pipeline_eval_v4 c7_datagram).2]
  decide

/-- C7: end-to-end IPv4 scenario. A session with identifier 0x1234 sends its
first request under sequence 1; the simulated echo reply with identifier
0x1234 and sequence 1 in a minimal IPv4 header (ttl 64, total_length 28)
yields PongResult with sequence 1, ttl 64, size 8, kind Reply. -/
theorem end_to_end_ipv4 :
    (ping (Pinger.new 0x1234) true).2 = some 1 ∧
    processPacket false (Pinger.new 0x1234).session 1 c7_datagram =
      some (RecvOutcome.accepted
        { sequence := 1, ttl := some 64, size := 8, mtype := ReplyType.Reply }) := by
  constructor
  · rfl
  · obtain ⟨h, hh, hred⟩ := processPacket_classified false (Pinger.new 0x1234).session 1
      c7_datagram ⟨0, 0, 0, 4660, 1⟩ c7_icmp_eval
    rw [c7_gen_eval] at hh
    have hh2 : ({ datagram_length := 28, data_offset := 20, ttl := some 64 } :
        GenericIPHeader) = h := by
      cases hh
      rfl
    rw [hred, ← hh2]
    have hcl : classify false (0 : Nat) = some ReplyType.Reply := by decide
    simp only [hcl]
    rw [if_neg (by decide), if_neg (by decide)]

end Ring
